import Mathlib

/-!
Shallow embedding of the bittranslate scoring pipeline:
`src/bittranslate/validator.py` and `src/bittranslate/prompt_dataset/peer_sum.py`.

Reward models, the language-identification backend, the text-generation
backend and the dataset contents are external collaborators; they are
modelled as function parameters.  Python floats are modelled as real
numbers.  Operations that can raise (indexing an empty list, `max`/`min`
of an empty list, division by zero, `ValueError`) are modelled in the
`Option` and `Except` monads.
-/

/-- A reward model collaborator: given a source text and the ordered candidate
list it returns one raw score per candidate (the interface of
`RewardModel.score`). -/
def RewardFn : Type := String → List String → List ℝ

/-- The language-identification collaborator (`langdetect.detect`): returns the
detected code, or `none` when detection raises an exception. -/
def DetectFn : Type := String → Option String

/-- The logistic function applied by `Validator._sigmoid_normalize`. -/
noncomputable def sigmoid (x : ℝ) : ℝ := 1 / (1 + Real.exp (-x))

/-- `Validator._sigmoid_normalize`: elementwise logistic normalization. -/
noncomputable def sigmoidNormalize (scores : List ℝ) : List ℝ := scores.map sigmoid

/-- `Validator._reward_weights`, fixed at construction to `[0.5, 0.5]`. -/
noncomputable def rewardWeights : List ℝ := [0.5, 0.5]

/-- `Validator._filter_lang`: for each candidate, 1 when the detected language
equals the target language, 0 when it differs or when detection raises. -/
def filterLang (detect : DetectFn) (translations : List String)
    (targetLang : String) : List ℕ :=
  translations.map (fun translation =>
    match detect translation with
    | none => 0
    | some pred => if pred = targetLang then 1 else 0)

/-- One iteration of the reward-model loop of `Validator.single_score`:
sigmoid-normalize the raw scores, weight them, and add them elementwise to
the running totals. -/
noncomputable def rmStep (source : String) (translations : List String)
    (acc : List ℝ) (mw : RewardFn × ℝ) : List ℝ :=
  List.zipWith (· + ·) acc
    ((sigmoidNormalize (mw.1 source translations)).map (fun s => s * mw.2))

/-- The reward-model accumulation of `Validator.single_score`: the running
composite over all reward models, before the language gate is applied. -/
noncomputable def rewardScores (models : List RewardFn) (weights : List ℝ)
    (source : String) (translations : List String) : List ℝ :=
  (models.zip weights).foldl (rmStep source translations)
    (List.replicate translations.length 0)

/-- `Validator.single_score`: the per-candidate composite, the reward totals
gated elementwise by the language filter. -/
noncomputable def singleScore (models : List RewardFn) (weights : List ℝ)
    (detect : DetectFn) (source : String) (translations : List String)
    (targetLang : String) : List ℝ :=
  List.zipWith (fun (a : ℕ) (b : ℝ) => (a : ℝ) * b)
    (filterLang detect translations targetLang)
    (rewardScores models weights source translations)

/-- Python `max` over a list of floats: raises on the empty list. -/
noncomputable def pyMax? : List ℝ → Option ℝ
  | [] => none
  | x :: xs => some (xs.foldl max x)

/-- Python `min` over a list of floats: raises on the empty list. -/
noncomputable def pyMin? : List ℝ → Option ℝ
  | [] => none
  | x :: xs => some (xs.foldl min x)

/-- The value of Python `max` on a non-empty list. -/
noncomputable def pyMaxD (l : List ℝ) : ℝ := (pyMax? l).getD 0

/-- The value of Python `min` on a non-empty list. -/
noncomputable def pyMinD (l : List ℝ) : ℝ := (pyMin? l).getD 0

/-- The loop state of `Validator.score`: running per-miner totals, the overall
max and min exemplars (score, source text, candidate text), and the per-source
top lists. -/
structure ScoreState where
  allScores : List ℝ
  topMax : ℝ × String × String
  topMin : ℝ × String × String
  topTranslations : List String
  topScores : List ℝ

/-- One iteration of the source loop of `Validator.score`.  Fails when the
per-source score list is empty (Python `max`/`min` raise on it). -/
noncomputable def scoreStep (models : List RewardFn) (weights : List ℝ)
    (detect : DetectFn) (targetLang : String)
    (st : ScoreState) (p : String × List String) : Option ScoreState :=
  let scores := singleScore models weights detect p.1 p.2 targetLang
  match pyMax? scores, pyMin? scores with
  | some maxScore, some minScore =>
      some { allScores := List.zipWith (· + ·) st.allScores scores
             topMax := if st.topMax.1 < maxScore
               then (maxScore, p.1, p.2.getD (scores.indexOf maxScore) "")
               else st.topMax
             topMin := if minScore < st.topMin.1
               then (minScore, p.1, p.2.getD (scores.indexOf minScore) "")
               else st.topMin
             topTranslations :=
               st.topTranslations ++ [p.2.getD (scores.indexOf maxScore) ""]
             topScores := st.topScores ++ [maxScore] }
  | _, _ => none

/-- The computation of `Validator.score`: the returned triple plus the two
exemplars that are reported to the tracker.  Fails exactly where the Python
raises: `translations[0]` on an empty batch, `max`/`min` on an empty score
list, and the per-entry division by `len(sources)` when it is zero. -/
noncomputable def scoreRun (models : List RewardFn) (weights : List ℝ)
    (detect : DetectFn) (sources : List String)
    (translations : List (List String)) (targetLang : String) :
    Option (List ℝ × List String × List ℝ ×
      (ℝ × String × String) × (ℝ × String × String)) := do
  let t0 ← translations.head?
  let init : ScoreState :=
    { allScores := List.replicate t0.length 0
      topMax := (0, "", "")
      topMin := (1.1, "", "")
      topTranslations := []
      topScores := [] }
  let fin ← (sources.zip translations).foldlM
    (scoreStep models weights detect targetLang) init
  let finalScores ← fin.allScores.mapM (fun a =>
    if sources.length = 0 then none else some (a / (sources.length : ℝ)))
  some (finalScores, fin.topTranslations, fin.topScores, fin.topMax, fin.topMin)

/-- `Validator.score` including the two tracker calls: each tracker call may
fail (`Except.error` models a raised exception); the two try/except blocks
catch and log, so the outcome is discarded and the computed triple is
returned unchanged. -/
noncomputable def scoreWithTracker (models : List RewardFn) (weights : List ℝ)
    (detect : DetectFn)
    (trackScores : String → String → List ℝ → Except String Unit)
    (trackTexts : String → String → String → String → ℝ → String → String → ℝ →
      Except String Unit)
    (sources : List String) (translations : List (List String))
    (sourceLang targetLang : String) : Option (List ℝ × List String × List ℝ) :=
  match scoreRun models weights detect sources translations targetLang with
  | none => none
  | some (finalScores, topTranslations, topScores, bm, wm) =>
      let _ := trackScores sourceLang targetLang finalScores
      let _ := trackTexts sourceLang targetLang wm.2.1 wm.2.2 wm.1 bm.2.1 bm.2.2 bm.1
      some (finalScores, topTranslations, topScores)

/-- `Validator._langs`. -/
def langs : List String :=
  ["ar", "bg", "de", "el", "en", "es", "hi", "hu", "it", "pl", "pt", "ro",
   "ru", "th", "tr", "vi"]

/-- `Validator._prior_langs`. -/
def priorLangs : List String := ["de", "en", "es", "it", "pl"]

/-- `itertools.permutations(l, 2)`: all ordered pairs of distinct entries,
first component in list order, second component in list order skipping the
first.  The language lists contain no duplicates, so filtering by value
coincides with the position-based enumeration. -/
def permutations2 (l : List String) : List (String × String) :=
  l.flatMap (fun x => (l.filter (fun y => y ≠ x)).map (fun y => (x, y)))

/-- `Validator._lang_pairs`. -/
def langPairs : List (String × String) := permutations2 langs

/-- `Validator._prior_lang_pairs`. -/
def priorLangPairs : List (String × String) := permutations2 priorLangs

/-- `new_lang_pairs` computed inside `Validator._select_lang_pair`. -/
def newLangPairs : List (String × String) :=
  langPairs.filter (fun p => p ∉ priorLangPairs)

/-- `Validator._select_lang_pair` with its two random draws as inputs: `r`
models `random.random()` (a value in `[0, 1)`) and `idx` models
`random.randint(0, len(lang_pairs) - 1)` (an index into the chosen list). -/
def selectLangPair (r : ℚ) (idx : ℕ) : String × String :=
  let pairs := if r < 0.95 then priorLangPairs else newLangPairs
  pairs.getD idx ("", "")

/-- `PeerSum._valid_ln`. -/
def validLn : List String := ["en"]

/-- `PeerSum.sample_case`, with the dataset contents (the non-null
`paper_abstract` column) and the index drawn by `random.randint` as inputs;
raising `ValueError` is modelled as `Except.error`. -/
def sampleCase (abstracts : List String) (randomIndex : ℕ) (language : String) :
    Except String String :=
  if language ∉ validLn then
    Except.error (language ++ " is an invalid language")
  else
    Except.ok (abstracts.getD randomIndex "")

/-- A concrete reward model used to instantiate theorems: every candidate
receives raw score 0. -/
noncomputable def constZeroModel : RewardFn := fun _ ts => ts.map (fun _ => 0)

/-! ### Basic facts about the logistic normalization -/

theorem sigmoid_pos (x : ℝ) : 0 < sigmoid x := by
  have h := Real.exp_pos (-x)
  unfold sigmoid
  positivity

theorem sigmoid_lt_one (x : ℝ) : sigmoid x < 1 := by
  have h := Real.exp_pos (-x)
  unfold sigmoid
  rw [div_lt_one (by linarith)]
  linarith

/-! ### Python max and min over non-empty lists -/

theorem le_foldl_max (xs : List ℝ) : ∀ x : ℝ, x ≤ xs.foldl max x := by
  induction xs with
  | nil => intro x; simp
  | cons y ys ih =>
    intro x
    rw [List.foldl_cons]
    exact le_trans (le_max_left x y) (ih (max x y))

theorem mem_le_foldl_max (xs : List ℝ) :
    ∀ x a : ℝ, a ∈ x :: xs → a ≤ xs.foldl max x := by
  induction xs with
  | nil =>
    intro x a ha
    rw [List.mem_singleton] at ha
    subst ha
    simp
  | cons y ys ih =>
    intro x a ha
    rw [List.foldl_cons]
    rcases List.mem_cons.mp ha with h | h
    · rw [h]
      exact le_trans (le_max_left x y) (le_foldl_max ys (max x y))
    · rcases List.mem_cons.mp h with h2 | h2
      · rw [h2]
        exact le_trans (le_max_right x y) (le_foldl_max ys (max x y))
      · exact ih (max x y) a (List.mem_cons_of_mem _ h2)

theorem foldl_max_mem (xs : List ℝ) : ∀ x : ℝ, xs.foldl max x ∈ x :: xs := by
  induction xs with
  | nil => intro x; simp
  | cons y ys ih =>
    intro x
    rw [List.foldl_cons]
    rcases List.mem_cons.mp (ih (max x y)) with h | h
    · rw [h]
      rcases max_choice x y with h2 | h2 <;> rw [h2]
      · exact List.mem_cons_self _ _
      · exact List.mem_cons_of_mem _ (List.mem_cons_self _ _)
    · exact List.mem_cons_of_mem _ (List.mem_cons_of_mem _ h)

theorem foldl_min_le (xs : List ℝ) : ∀ x : ℝ, xs.foldl min x ≤ x := by
  induction xs with
  | nil => intro x; simp
  | cons y ys ih =>
    intro x
    rw [List.foldl_cons]
    exact le_trans (ih (min x y)) (min_le_left x y)

theorem foldl_min_le_mem (xs : List ℝ) :
    ∀ x a : ℝ, a ∈ x :: xs → xs.foldl min x ≤ a := by
  induction xs with
  | nil =>
    intro x a ha
    rw [List.mem_singleton] at ha
    subst ha
    simp
  | cons y ys ih =>
    intro x a ha
    rw [List.foldl_cons]
    rcases List.mem_cons.mp ha with h | h
    · rw [h]
      exact le_trans (foldl_min_le ys (min x y)) (min_le_left x y)
    · rcases List.mem_cons.mp h with h2 | h2
      · rw [h2]
        exact le_trans (foldl_min_le ys (min x y)) (min_le_right x y)
      · exact ih (min x y) a (List.mem_cons_of_mem _ h2)

theorem foldl_min_mem (xs : List ℝ) : ∀ x : ℝ, xs.foldl min x ∈ x :: xs := by
  induction xs with
  | nil => intro x; simp
  | cons y ys ih =>
    intro x
    rw [List.foldl_cons]
    rcases List.mem_cons.mp (ih (min x y)) with h | h
    · rw [h]
      rcases min_choice x y with h2 | h2 <;> rw [h2]
      · exact List.mem_cons_self _ _
      · exact List.mem_cons_of_mem _ (List.mem_cons_self _ _)
    · exact List.mem_cons_of_mem _ (List.mem_cons_of_mem _ h)

theorem pyMax?_eq_some {l : List ℝ} (h : l ≠ []) : pyMax? l = some (pyMaxD l) := by
  cases l with
  | nil => exact absurd rfl h
  | cons x xs => rfl

theorem pyMin?_eq_some {l : List ℝ} (h : l ≠ []) : pyMin? l = some (pyMinD l) := by
  cases l with
  | nil => exact absurd rfl h
  | cons x xs => rfl

theorem pyMaxD_mem {l : List ℝ} (h : l ≠ []) : pyMaxD l ∈ l := by
  cases l with
  | nil => exact absurd rfl h
  | cons x xs => simpa [pyMaxD, pyMax?] using foldl_max_mem xs x

theorem le_pyMaxD {l : List ℝ} {a : ℝ} (ha : a ∈ l) : a ≤ pyMaxD l := by
  cases l with
  | nil => simp at ha
  | cons x xs => simpa [pyMaxD, pyMax?] using mem_le_foldl_max xs x a ha

theorem pyMinD_mem {l : List ℝ} (h : l ≠ []) : pyMinD l ∈ l := by
  cases l with
  | nil => exact absurd rfl h
  | cons x xs => simpa [pyMinD, pyMin?] using foldl_min_mem xs x

theorem pyMinD_le {l : List ℝ} {a : ℝ} (ha : a ∈ l) : pyMinD l ≤ a := by
  cases l with
  | nil => simp at ha
  | cons x xs => simpa [pyMinD, pyMin?] using foldl_min_le_mem xs x a ha

/-! ### First-occurrence index lookup -/

theorem indexOf_spec (l : List ℝ) (a : ℝ) (h : a ∈ l) :
    l.indexOf a < l.length ∧ l.getD (l.indexOf a) 0 = a ∧
      ∀ k, k < l.indexOf a → l.getD k 0 ≠ a := by
  induction l with
  | nil => simp at h
  | cons x xs ih =>
    by_cases hx : x = a
    · rw [List.indexOf_cons_eq xs hx]
      exact ⟨by simp, by simpa using hx, fun k hk => absurd hk (by omega)⟩
    · have hmem : a ∈ xs := by
        rcases List.mem_cons.mp h with h2 | h2
        · exact absurd h2.symm hx
        · exact h2
      obtain ⟨h1, h2, h3⟩ := ih hmem
      rw [List.indexOf_cons_ne xs hx]
      refine ⟨by simpa using h1, by simpa using h2, ?_⟩
      intro k hk
      cases k with
      | zero => simpa using hx
      | succ k2 =>
        rw [List.getD_cons_succ]
        exact h3 k2 (by omega)

/-! ### Indexing helpers -/

theorem getD_zipWith {α β γ : Type} (f : α → β → γ) (da : α) (db : β) (dc : γ)
    (a : List α) (b : List β) (i : ℕ) (ha : i < a.length) (hb : i < b.length) :
    (List.zipWith f a b).getD i dc = f (a.getD i da) (b.getD i db) := by
  have hl : i < (List.zipWith f a b).length := by
    rw [List.length_zipWith]
    omega
  rw [List.getD_eq_getElem _ _ hl, List.getD_eq_getElem _ _ ha,
    List.getD_eq_getElem _ _ hb, List.getElem_zipWith]

theorem getD_map {α β : Type} (f : α → β) (da : α) (db : β) (l : List α) (i : ℕ)
    (hi : i < l.length) : (l.map f).getD i db = f (l.getD i da) := by
  have hl : i < (l.map f).length := by
    rw [List.length_map]
    exact hi
  rw [List.getD_eq_getElem _ _ hl, List.getD_eq_getElem _ _ hi, List.getElem_map]

theorem zip_getD (sources : List String) (translations : List (List String))
    (j : ℕ) (hj : j < sources.length) (hlen : sources.length = translations.length) :
    (sources.zip translations).getD j ("", []) =
      (sources.getD j "", translations.getD j []) := by
  have hj2 : j < translations.length := hlen ▸ hj
  have hz : j < (sources.zip translations).length := by
    rw [List.length_zip]
    omega
  rw [List.getD_eq_getElem _ _ hz, List.getD_eq_getElem _ _ hj,
    List.getD_eq_getElem _ _ hj2, List.getElem_zip]

/-! ### The language filter -/

theorem filterLang_length (detect : DetectFn) (translations : List String)
    (targetLang : String) :
    (filterLang detect translations targetLang).length = translations.length := by
  simp [filterLang]

theorem filterLang_getD (detect : DetectFn) (translations : List String)
    (targetLang : String) (i : ℕ) (hi : i < translations.length) :
    (filterLang detect translations targetLang).getD i 0 =
      match detect (translations.getD i "") with
      | none => 0
      | some pred => if pred = targetLang then 1 else 0 := by
  unfold filterLang
  rw [getD_map _ "" 0 _ i hi]

theorem filterLang_mem_cases (detect : DetectFn) (translations : List String)
    (targetLang : String) :
    ∀ g ∈ filterLang detect translations targetLang, g = 0 ∨ g = 1 := by
  intro g hg
  unfold filterLang at hg
  obtain ⟨t, _, ht⟩ := List.mem_map.mp hg
  cases hdet : detect t with
  | none =>
    rw [hdet] at ht
    simp at ht
    omega
  | some pred =>
    rw [hdet] at ht
    by_cases hp : pred = targetLang
    · simp [hp] at ht
      omega
    · simp [hp] at ht
      omega

/-! ### The reward-model accumulation -/

theorem rmFold_length (source : String) (translations : List String) :
    ∀ (L : List (RewardFn × ℝ)) (acc : List ℝ),
    (∀ mw ∈ L, (mw.1 source translations).length = translations.length) →
    acc.length = translations.length →
    (L.foldl (rmStep source translations) acc).length = translations.length := by
  intro L
  induction L with
  | nil =>
    intro acc _ hacc
    simpa using hacc
  | cons mw L ih =>
    intro acc hL hacc
    rw [List.foldl_cons]
    refine ih _ (fun x hx => hL x (List.mem_cons_of_mem _ hx)) ?_
    have hm := hL mw (List.mem_cons_self _ _)
    simp [rmStep, sigmoidNormalize, hacc, hm]

theorem rmFold_getD (source : String) (translations : List String) (i : ℕ)
    (hi : i < translations.length) :
    ∀ (L : List (RewardFn × ℝ)) (acc : List ℝ),
    (∀ mw ∈ L, (mw.1 source translations).length = translations.length) →
    acc.length = translations.length →
    (L.foldl (rmStep source translations) acc).getD i 0 =
      acc.getD i 0 +
        (L.map (fun mw => mw.2 * sigmoid ((mw.1 source translations).getD i 0))).sum := by
  intro L
  induction L with
  | nil =>
    intro acc _ _
    simp
  | cons mw L ih =>
    intro acc hL hacc
    have hm := hL mw (List.mem_cons_self _ _)
    have hstep : (rmStep source translations acc mw).length = translations.length := by
      simp [rmStep, sigmoidNormalize, hacc, hm]
    rw [List.foldl_cons, ih _ (fun x hx => hL x (List.mem_cons_of_mem _ hx)) hstep]
    have hentry : (rmStep source translations acc mw).getD i 0 =
        acc.getD i 0 + mw.2 * sigmoid ((mw.1 source translations).getD i 0) := by
      unfold rmStep sigmoidNormalize
      rw [getD_zipWith _ 0 0 0 _ _ i (by omega)
        (by simp [hm]; omega)]
      rw [getD_map _ 0 0 _ i (by simp [hm]; omega)]
      rw [getD_map _ 0 0 _ i (by omega)]
      ring
    rw [hentry, List.map_cons, List.sum_cons]
    ring

theorem rewardScores_length (models : List RewardFn) (weights : List ℝ)
    (source : String) (translations : List String)
    (h : ∀ mw ∈ models.zip weights,
      (mw.1 source translations).length = translations.length) :
    (rewardScores models weights source translations).length = translations.length := by
  unfold rewardScores
  exact rmFold_length source translations _ _ h (by simp)

theorem rewardScores_getD (models : List RewardFn) (weights : List ℝ)
    (source : String) (translations : List String) (i : ℕ)
    (hi : i < translations.length)
    (h : ∀ mw ∈ models.zip weights,
      (mw.1 source translations).length = translations.length) :
    (rewardScores models weights source translations).getD i 0 =
      ((models.zip weights).map
        (fun mw => mw.2 * sigmoid ((mw.1 source translations).getD i 0))).sum := by
  unfold rewardScores
  rw [rmFold_getD source translations i hi _ _ h (by simp)]
  have hrep : (List.replicate translations.length (0 : ℝ)).getD i 0 = 0 := by
    rw [List.getD_eq_getElem _ _ (by simpa using hi)]
    simp
  rw [hrep, zero_add]

/-! ### The per-source composite -/

theorem singleScore_length (models : List RewardFn) (weights : List ℝ)
    (detect : DetectFn) (source : String) (translations : List String)
    (targetLang : String)
    (h : ∀ mw ∈ models.zip weights,
      (mw.1 source translations).length = translations.length) :
    (singleScore models weights detect source translations targetLang).length =
      translations.length := by
  unfold singleScore
  rw [List.length_zipWith, filterLang_length, rewardScores_length _ _ _ _ h]
  exact min_self _

theorem singleScore_getD (models : List RewardFn) (weights : List ℝ)
    (detect : DetectFn) (source : String) (translations : List String)
    (targetLang : String) (i : ℕ) (hi : i < translations.length)
    (h : ∀ mw ∈ models.zip weights,
      (mw.1 source translations).length = translations.length) :
    (singleScore models weights detect source translations targetLang).getD i 0 =
      (((filterLang detect translations targetLang).getD i 0 : ℕ) : ℝ) *
        (rewardScores models weights source translations).getD i 0 := by
  unfold singleScore
  rw [getD_zipWith _ 0 0 0 _ _ i (by rw [filterLang_length]; exact hi)
    (by rw [rewardScores_length _ _ _ _ h]; exact hi)]

/-! ### The validator configuration: two reward models with weight 0.5 each -/

theorem zip_two_models (m1 m2 : RewardFn) :
    [m1, m2].zip rewardWeights = [(m1, (0.5 : ℝ)), (m2, (0.5 : ℝ))] := by
  simp [rewardWeights]

theorem twoModel_len_hyp (m1 m2 : RewardFn) (source : String)
    (translations : List String)
    (h1 : (m1 source translations).length = translations.length)
    (h2 : (m2 source translations).length = translations.length) :
    ∀ mw ∈ [m1, m2].zip rewardWeights,
      (mw.1 source translations).length = translations.length := by
  rw [zip_two_models]
  intro mw hmw
  simp only [List.mem_cons, List.mem_singleton, List.not_mem_nil, or_false] at hmw
  rcases hmw with rfl | rfl
  · exact h1
  · exact h2

theorem singleScore_bounds (m1 m2 : RewardFn) (detect : DetectFn)
    (source : String) (translations : List String) (targetLang : String)
    (h1 : (m1 source translations).length = translations.length)
    (h2 : (m2 source translations).length = translations.length) :
    ∀ x ∈ singleScore [m1, m2] rewardWeights detect source translations targetLang,
      0 ≤ x ∧ x ≤ 1 := by
  intro x hx
  have hzip := twoModel_len_hyp m1 m2 source translations h1 h2
  have hlen := singleScore_length [m1, m2] rewardWeights detect source
    translations targetLang hzip
  obtain ⟨i, hilt, hxeq⟩ := List.mem_iff_getElem.mp hx
  have hi : i < translations.length := by
    rw [hlen] at hilt
    exact hilt
  have hxg : (singleScore [m1, m2] rewardWeights detect source translations
      targetLang).getD i 0 = x := by
    rw [List.getD_eq_getElem _ _ (by rw [hlen]; exact hi)]
    exact hxeq
  rw [singleScore_getD [m1, m2] rewardWeights detect source translations
    targetLang i hi hzip] at hxg
  rw [rewardScores_getD [m1, m2] rewardWeights source translations i hi hzip,
    zip_two_models] at hxg
  have hgmem : (filterLang detect translations targetLang).getD i 0 ∈
      filterLang detect translations targetLang := by
    have hfl : i < (filterLang detect translations targetLang).length := by
      rw [filterLang_length]
      exact hi
    rw [List.getD_eq_getElem _ _ hfl]
    exact List.getElem_mem hfl
  have hgate := filterLang_mem_cases detect translations targetLang _ hgmem
  have hsa1 := sigmoid_pos ((m1 source translations).getD i 0)
  have hsa2 := sigmoid_lt_one ((m1 source translations).getD i 0)
  have hsb1 := sigmoid_pos ((m2 source translations).getD i 0)
  have hsb2 := sigmoid_lt_one ((m2 source translations).getD i 0)
  simp only [List.map_cons, List.map_nil, List.sum_cons, List.sum_nil] at hxg
  rcases hgate with hg | hg <;> rw [hg] at hxg
  · rw [Nat.cast_zero, zero_mul] at hxg
    constructor <;> linarith
  · rw [Nat.cast_one, one_mul] at hxg
    constructor <;> linarith

/-! ### The strict-improvement folds used for the overall exemplars -/

/-- The update of the overall best exemplar: replaced only on strict
improvement, so the first-seen occurrence of the maximum is kept. -/
noncomputable def bestStep (acc x : ℝ × String × String) : ℝ × String × String :=
  if acc.1 < x.1 then x else acc

/-- The update of the overall worst exemplar. -/
noncomputable def worstStep (acc x : ℝ × String × String) : ℝ × String × String :=
  if x.1 < acc.1 then x else acc

theorem bestFold_cases :
    ∀ (L : List (ℝ × String × String)) (a0 : ℝ × String × String),
    (L.foldl bestStep a0 = a0 ∧ ∀ x ∈ L, x.1 ≤ a0.1) ∨
    ∃ i, i < L.length ∧ L.foldl bestStep a0 = L.getD i (0, "", "") ∧
      a0.1 < (L.getD i (0, "", "")).1 ∧
      (∀ x ∈ L, x.1 ≤ (L.getD i (0, "", "")).1) ∧
      ∀ k, k < i → (L.getD k (0, "", "")).1 < (L.getD i (0, "", "")).1 := by
  intro L
  induction L with
  | nil =>
    intro a0
    left
    exact ⟨rfl, by simp⟩
  | cons x xs ih =>
    intro a0
    rw [List.foldl_cons]
    by_cases hx : a0.1 < x.1
    · have hstep : bestStep a0 x = x := by
        unfold bestStep
        rw [if_pos hx]
      rw [hstep]
      rcases ih x with ⟨heq, hall⟩ | ⟨i, hi, heq, hgt, hall, hfirst⟩
      · right
        refine ⟨0, by simp, by simpa using heq, by simpa using hx, ?_, ?_⟩
        · intro y hy
          rcases List.mem_cons.mp hy with h | h
          · rw [h]
            simp
          · simpa using hall y h
        · intro k hk
          omega
      · right
        refine ⟨i + 1, by simpa using hi, by simpa using heq, ?_, ?_, ?_⟩
        · rw [List.getD_cons_succ]
          exact lt_trans hx hgt
        · intro y hy
          rw [List.getD_cons_succ]
          rcases List.mem_cons.mp hy with h | h
          · rw [h]
            exact le_of_lt hgt
          · exact hall y h
        · intro k hk
          cases k with
          | zero =>
            rw [List.getD_cons_zero, List.getD_cons_succ]
            exact hgt
          | succ k2 =>
            rw [List.getD_cons_succ, List.getD_cons_succ]
            exact hfirst k2 (by omega)
    · have hstep : bestStep a0 x = a0 := by
        unfold bestStep
        rw [if_neg hx]
      rw [hstep]
      rcases ih a0 with ⟨heq, hall⟩ | ⟨i, hi, heq, hgt, hall, hfirst⟩
      · left
        refine ⟨heq, ?_⟩
        intro y hy
        rcases List.mem_cons.mp hy with h | h
        · rw [h]
          exact not_lt.mp hx
        · exact hall y h
      · right
        refine ⟨i + 1, by simpa using hi, by simpa using heq, ?_, ?_, ?_⟩
        · rw [List.getD_cons_succ]
          exact hgt
        · intro y hy
          rw [List.getD_cons_succ]
          rcases List.mem_cons.mp hy with h | h
          · rw [h]
            exact le_trans (not_lt.mp hx) (le_of_lt hgt)
          · exact hall y h
        · intro k hk
          cases k with
          | zero =>
            rw [List.getD_cons_zero, List.getD_cons_succ]
            exact lt_of_le_of_lt (not_lt.mp hx) hgt
          | succ k2 =>
            rw [List.getD_cons_succ, List.getD_cons_succ]
            exact hfirst k2 (by omega)

theorem worstFold_cases :
    ∀ (L : List (ℝ × String × String)) (a0 : ℝ × String × String),
    (L.foldl worstStep a0 = a0 ∧ ∀ x ∈ L, a0.1 ≤ x.1) ∨
    ∃ i, i < L.length ∧ L.foldl worstStep a0 = L.getD i (0, "", "") ∧
      (L.getD i (0, "", "")).1 < a0.1 ∧
      (∀ x ∈ L, (L.getD i (0, "", "")).1 ≤ x.1) ∧
      ∀ k, k < i → (L.getD i (0, "", "")).1 < (L.getD k (0, "", "")).1 := by
  intro L
  induction L with
  | nil =>
    intro a0
    left
    exact ⟨rfl, by simp⟩
  | cons x xs ih =>
    intro a0
    rw [List.foldl_cons]
    by_cases hx : x.1 < a0.1
    · have hstep : worstStep a0 x = x := by
        unfold worstStep
        rw [if_pos hx]
      rw [hstep]
      rcases ih x with ⟨heq, hall⟩ | ⟨i, hi, heq, hgt, hall, hfirst⟩
      · right
        refine ⟨0, by simp, by simpa using heq, by simpa using hx, ?_, ?_⟩
        · intro y hy
          rcases List.mem_cons.mp hy with h | h
          · rw [h]
            simp
          · simpa using hall y h
        · intro k hk
          omega
      · right
        refine ⟨i + 1, by simpa using hi, by simpa using heq, ?_, ?_, ?_⟩
        · rw [List.getD_cons_succ]
          exact lt_trans hgt hx
        · intro y hy
          rw [List.getD_cons_succ]
          rcases List.mem_cons.mp hy with h | h
          · rw [h]
            exact le_of_lt hgt
          · exact hall y h
        · intro k hk
          cases k with
          | zero =>
            rw [List.getD_cons_zero, List.getD_cons_succ]
            exact hgt
          | succ k2 =>
            rw [List.getD_cons_succ, List.getD_cons_succ]
            exact hfirst k2 (by omega)
    · have hstep : worstStep a0 x = a0 := by
        unfold worstStep
        rw [if_neg hx]
      rw [hstep]
      rcases ih a0 with ⟨heq, hall⟩ | ⟨i, hi, heq, hgt, hall, hfirst⟩
      · left
        refine ⟨heq, ?_⟩
        intro y hy
        rcases List.mem_cons.mp hy with h | h
        · rw [h]
          exact not_lt.mp hx
        · exact hall y h
      · right
        refine ⟨i + 1, by simpa using hi, by simpa using heq, ?_, ?_, ?_⟩
        · rw [List.getD_cons_succ]
          exact hgt
        · intro y hy
          rw [List.getD_cons_succ]
          rcases List.mem_cons.mp hy with h | h
          · rw [h]
            exact le_trans (le_of_lt hgt) (not_lt.mp hx)
          · exact hall y h
        · intro k hk
          cases k with
          | zero =>
            rw [List.getD_cons_zero, List.getD_cons_succ]
            exact lt_of_lt_of_le hgt (not_lt.mp hx)
          | succ k2 =>
            rw [List.getD_cons_succ, List.getD_cons_succ]
            exact hfirst k2 (by omega)

/-! ### Pure description of the source loop of `Validator.score` -/

/-- The per-source composite vector, as a function of the (source, candidates)
pair processed by the loop. -/
noncomputable def pSc (models : List RewardFn) (weights : List ℝ)
    (detect : DetectFn) (targetLang : String) (p : String × List String) :
    List ℝ :=
  singleScore models weights detect p.1 p.2 targetLang

/-- `max_score` of one loop iteration. -/
noncomputable def pMax (models : List RewardFn) (weights : List ℝ)
    (detect : DetectFn) (targetLang : String) (p : String × List String) : ℝ :=
  pyMaxD (pSc models weights detect targetLang p)

/-- `min_score` of one loop iteration. -/
noncomputable def pMin (models : List RewardFn) (weights : List ℝ)
    (detect : DetectFn) (targetLang : String) (p : String × List String) : ℝ :=
  pyMinD (pSc models weights detect targetLang p)

/-- `max_score_value` of one loop iteration: the candidate at the first index
achieving the per-source maximum. -/
noncomputable def pMaxCand (models : List RewardFn) (weights : List ℝ)
    (detect : DetectFn) (targetLang : String) (p : String × List String) :
    String :=
  p.2.getD ((pSc models weights detect targetLang p).indexOf
    (pMax models weights detect targetLang p)) ""

/-- `min_score_value` of one loop iteration. -/
noncomputable def pMinCand (models : List RewardFn) (weights : List ℝ)
    (detect : DetectFn) (targetLang : String) (p : String × List String) :
    String :=
  p.2.getD ((pSc models weights detect targetLang p).indexOf
    (pMin models weights detect targetLang p)) ""

/-- The elementwise accumulation of per-source composites into `all_scores`. -/
noncomputable def accStep (models : List RewardFn) (weights : List ℝ)
    (detect : DetectFn) (targetLang : String) (acc : List ℝ)
    (p : String × List String) : List ℝ :=
  List.zipWith (· + ·) acc (pSc models weights detect targetLang p)

/-- The successful outcome of one source-loop iteration. -/
noncomputable def scoreStepPure (models : List RewardFn) (weights : List ℝ)
    (detect : DetectFn) (targetLang : String) (st : ScoreState)
    (p : String × List String) : ScoreState :=
  { allScores := accStep models weights detect targetLang st.allScores p
    topMax := bestStep st.topMax
      (pMax models weights detect targetLang p, p.1,
        pMaxCand models weights detect targetLang p)
    topMin := worstStep st.topMin
      (pMin models weights detect targetLang p, p.1,
        pMinCand models weights detect targetLang p)
    topTranslations :=
      st.topTranslations ++ [pMaxCand models weights detect targetLang p]
    topScores := st.topScores ++ [pMax models weights detect targetLang p] }

theorem scoreStep_eq (models : List RewardFn) (weights : List ℝ)
    (detect : DetectFn) (targetLang : String) (st : ScoreState)
    (p : String × List String)
    (h : pSc models weights detect targetLang p ≠ []) :
    scoreStep models weights detect targetLang st p =
      some (scoreStepPure models weights detect targetLang st p) := by
  have h2 := pyMax?_eq_some h
  have h3 := pyMin?_eq_some h
  unfold pSc at h h2 h3
  unfold scoreStep scoreStepPure accStep bestStep worstStep pMaxCand pMinCand pMax pMin pSc
  simp only [h2, h3]

theorem foldlM_scoreStep_eq (models : List RewardFn) (weights : List ℝ)
    (detect : DetectFn) (targetLang : String) :
    ∀ (pairs : List (String × List String)) (st : ScoreState),
    (∀ p ∈ pairs, pSc models weights detect targetLang p ≠ []) →
    List.foldlM (scoreStep models weights detect targetLang) st pairs =
      some (pairs.foldl (scoreStepPure models weights detect targetLang) st) := by
  intro pairs
  induction pairs with
  | nil =>
    intro st _
    rfl
  | cons p ps ih =>
    intro st h
    rw [List.foldlM_cons,
      scoreStep_eq models weights detect targetLang st p (h p (List.mem_cons_self _ _)),
      List.foldl_cons]
    exact ih _ (fun q hq => h q (List.mem_cons_of_mem _ hq))

theorem foldl_scoreStepPure_components (models : List RewardFn)
    (weights : List ℝ) (detect : DetectFn) (targetLang : String) :
    ∀ (pairs : List (String × List String)) (st : ScoreState),
    (pairs.foldl (scoreStepPure models weights detect targetLang) st).allScores =
        pairs.foldl (accStep models weights detect targetLang) st.allScores ∧
      (pairs.foldl (scoreStepPure models weights detect targetLang) st).topMax =
        (pairs.map (fun p => (pMax models weights detect targetLang p, p.1,
          pMaxCand models weights detect targetLang p))).foldl bestStep st.topMax ∧
      (pairs.foldl (scoreStepPure models weights detect targetLang) st).topMin =
        (pairs.map (fun p => (pMin models weights detect targetLang p, p.1,
          pMinCand models weights detect targetLang p))).foldl worstStep st.topMin ∧
      (pairs.foldl (scoreStepPure models weights detect targetLang) st).topTranslations =
        st.topTranslations ++ pairs.map (pMaxCand models weights detect targetLang) ∧
      (pairs.foldl (scoreStepPure models weights detect targetLang) st).topScores =
        st.topScores ++ pairs.map (pMax models weights detect targetLang) := by
  intro pairs
  induction pairs with
  | nil =>
    intro st
    exact ⟨rfl, rfl, rfl, by simp, by simp⟩
  | cons p ps ih =>
    intro st
    obtain ⟨h1, h2, h3, h4, h5⟩ :=
      ih (scoreStepPure models weights detect targetLang st p)
    rw [List.foldl_cons]
    refine ⟨?_, ?_, ?_, ?_, ?_⟩
    · rw [h1, List.foldl_cons]
      rfl
    · rw [h2, List.map_cons, List.foldl_cons]
      rfl
    · rw [h3, List.map_cons, List.foldl_cons]
      rfl
    · rw [h4, List.map_cons]
      show (st.topTranslations ++ [pMaxCand models weights detect targetLang p]) ++ _ = _
      rw [List.append_assoc, List.singleton_append]
    · rw [h5, List.map_cons]
      show (st.topScores ++ [pMax models weights detect targetLang p]) ++ _ = _
      rw [List.append_assoc, List.singleton_append]

theorem mapM_div (n : ℕ) (hn : n ≠ 0) :
    ∀ l : List ℝ,
    l.mapM (fun a => if n = 0 then none else some (a / (n : ℝ))) =
      some (l.map (fun a => a / (n : ℝ))) := by
  intro l
  induction l with
  | nil => rfl
  | cons x xs ih =>
    rw [List.mapM_cons, ih]
    simp [hn]

theorem foldl_accStep_spec (models : List RewardFn) (weights : List ℝ)
    (detect : DetectFn) (targetLang : String) (Mlen : ℕ) :
    ∀ (pairs : List (String × List String)) (acc : List ℝ),
    (∀ p ∈ pairs, (pSc models weights detect targetLang p).length = Mlen) →
    acc.length = Mlen →
    (pairs.foldl (accStep models weights detect targetLang) acc).length = Mlen ∧
      ∀ i, i < Mlen →
        (pairs.foldl (accStep models weights detect targetLang) acc).getD i 0 =
          acc.getD i 0 +
            (pairs.map (fun p => (pSc models weights detect targetLang p).getD i 0)).sum := by
  intro pairs
  induction pairs with
  | nil =>
    intro acc _ hacc
    exact ⟨hacc, by simp⟩
  | cons p ps ih =>
    intro acc hp hacc
    have hplen : (pSc models weights detect targetLang p).length = Mlen :=
      hp p (List.mem_cons_self _ _)
    have hstep : (accStep models weights detect targetLang acc p).length = Mlen := by
      unfold accStep
      rw [List.length_zipWith, hacc, hplen]
      exact min_self _
    obtain ⟨ih1, ih2⟩ :=
      ih (accStep models weights detect targetLang acc p)
        (fun q hq => hp q (List.mem_cons_of_mem _ hq)) hstep
    rw [List.foldl_cons]
    refine ⟨ih1, ?_⟩
    intro i hi
    rw [ih2 i hi]
    have hentry : (accStep models weights detect targetLang acc p).getD i 0 =
        acc.getD i 0 + (pSc models weights detect targetLang p).getD i 0 := by
      unfold accStep
      rw [getD_zipWith _ 0 0 0 _ _ i (by rw [hacc]; exact hi) (by rw [hplen]; exact hi)]
    rw [hentry, List.map_cons, List.sum_cons]
    ring

theorem scoreRun_eq (models : List RewardFn) (weights : List ℝ)
    (detect : DetectFn) (targetLang : String) (sources : List String)
    (t0 : List String) (ts : List (List String)) (hS : sources ≠ [])
    (hnz : ∀ p ∈ sources.zip (t0 :: ts),
      pSc models weights detect targetLang p ≠ []) :
    scoreRun models weights detect sources (t0 :: ts) targetLang =
      some
        (((sources.zip (t0 :: ts)).foldl (accStep models weights detect targetLang)
            (List.replicate t0.length 0)).map (fun a => a / (sources.length : ℝ)),
          (sources.zip (t0 :: ts)).map (pMaxCand models weights detect targetLang),
          (sources.zip (t0 :: ts)).map (pMax models weights detect targetLang),
          ((sources.zip (t0 :: ts)).map (fun p =>
            (pMax models weights detect targetLang p, p.1,
              pMaxCand models weights detect targetLang p))).foldl bestStep (0, "", ""),
          ((sources.zip (t0 :: ts)).map (fun p =>
            (pMin models weights detect targetLang p, p.1,
              pMinCand models weights detect targetLang p))).foldl worstStep
            (1.1, "", "")) := by
  have hSlen : sources.length ≠ 0 := fun h => hS (List.length_eq_zero.mp h)
  obtain ⟨h1, h2, h3, h4, h5⟩ :=
    foldl_scoreStepPure_components models weights detect targetLang
      (sources.zip (t0 :: ts))
      { allScores := List.replicate t0.length 0
        topMax := (0, "", "")
        topMin := (1.1, "", "")
        topTranslations := []
        topScores := [] }
  unfold scoreRun
  rw [List.head?_cons]
  simp only [Option.bind_eq_bind, Option.some_bind]
  rw [foldlM_scoreStep_eq models weights detect targetLang _ _ hnz]
  simp only [Option.some_bind]
  rw [h1, h2, h3, h4, h5, mapM_div sources.length hSlen]
  simp only [Option.some_bind, List.nil_append]

theorem mem_permutations2 (l : List String) (p : String × String) :
    p ∈ permutations2 l ↔ p.1 ∈ l ∧ p.2 ∈ l ∧ p.2 ≠ p.1 := by
  unfold permutations2
  constructor
  · intro h
    obtain ⟨x, hx, h2⟩ := List.mem_flatMap.mp h
    obtain ⟨y, hy, rfl⟩ := List.mem_map.mp h2
    obtain ⟨hyl, hyx⟩ := List.mem_filter.mp hy
    exact ⟨hx, hyl, by simpa using hyx⟩
  · intro h
    obtain ⟨h1, h2, h3⟩ := h
    refine List.mem_flatMap.mpr ⟨p.1, h1, ?_⟩
    refine List.mem_map.mpr ⟨p.2, List.mem_filter.mpr ⟨h2, by simpa using h3⟩, ?_⟩
    rfl

/-- C10: on the empty batch (both `sources` and `translations` empty),
`Validator.score` does not return a result: evaluating `translations[0]`
raises, so the modelled run is `none` — batch non-emptiness is an implicit
precondition that the specification does not state. -/
theorem scoreRun_empty_batch_fails (models : List RewardFn) (weights : List ℝ)
    (detect : DetectFn) (targetLang : String) :
    scoreRun models weights detect [] [] targetLang = none := by
  rfl

/-- C2: a candidate whose detected language differs from the target language,
or whose detection fails, receives composite score exactly 0 from
`single_score`, regardless of what the reward models return. -/
theorem singleScore_wrong_lang_zero (models : List RewardFn) (weights : List ℝ)
    (detect : DetectFn) (source : String) (translations : List String)
    (targetLang : String) (i : ℕ) (hi : i < translations.length)
    (hd : detect (translations.getD i "") ≠ some targetLang) :
    (singleScore models weights detect source translations targetLang).getD i 0 = 0 := by
  have hg : (filterLang detect translations targetLang).getD i 0 = 0 := by
    rw [filterLang_getD detect translations targetLang i hi]
    cases hdet : detect (translations.getD i "") with
    | none => rfl
    | some pred =>
      have hne : pred ≠ targetLang := fun h => hd (by rw [hdet, h])
      simp [hne]
  unfold singleScore
  by_cases hz : i < (List.zipWith (fun (a : ℕ) (b : ℝ) => (a : ℝ) * b)
      (filterLang detect translations targetLang)
      (rewardScores models weights source translations)).length
  · have hbounds : i < (filterLang detect translations targetLang).length ∧
        i < (rewardScores models weights source translations).length := by
      rw [List.length_zipWith] at hz
      omega
    rw [getD_zipWith _ 0 0 0 _ _ i hbounds.1 hbounds.2, hg]
    simp
  · rw [List.getD_eq_default _ _ (by omega)]

/-- C8: `_filter_lang` never propagates a detection failure: a candidate whose
detection raises is marked 0 and all remaining candidates are still
processed (the gate list covers every input index); when detection succeeds
the gate is 1 exactly when the detected code string-equals the target
language code, else 0. -/
theorem filterLang_spec (detect : DetectFn) (translations : List String)
    (targetLang : String) :
    (filterLang detect translations targetLang).length = translations.length ∧
    ∀ i, i < translations.length →
      (detect (translations.getD i "") = none →
        (filterLang detect translations targetLang).getD i 0 = 0) ∧
      (∀ pred, detect (translations.getD i "") = some pred →
        (filterLang detect translations targetLang).getD i 0 =
          if pred = targetLang then 1 else 0) := by
  refine ⟨filterLang_length detect translations targetLang, ?_⟩
  intro i hi
  constructor
  · intro hnone
    rw [filterLang_getD detect translations targetLang i hi, hnone]
  · intro pred hsome
    rw [filterLang_getD detect translations targetLang i hi, hsome]

/-- C9: `PeerSum.sample_case` fails immediately with an invalid-argument error
for a language code outside the supported set, and for a supported code
returns a text sampled from the dataset. -/
theorem sampleCase_spec (abstracts : List String) (randomIndex : ℕ)
    (language : String) :
    (language ∉ validLn →
      ∃ msg, sampleCase abstracts randomIndex language = Except.error msg) ∧
    (language ∈ validLn → randomIndex < abstracts.length →
      sampleCase abstracts randomIndex language =
        Except.ok (abstracts.getD randomIndex "") ∧
      abstracts.getD randomIndex "" ∈ abstracts) := by
  constructor
  · intro hmem
    refine ⟨language ++ " is an invalid language", ?_⟩
    unfold sampleCase
    rw [if_pos hmem]
  · intro hmem hidx
    constructor
    · unfold sampleCase
      rw [if_neg (fun h => h hmem)]
    · rw [List.getD_eq_getElem _ _ hidx]
      exact List.getElem_mem hidx

/-- C6: modelling the two random draws as inputs, `_select_lang_pair` returns
a pair of the ordered no-self prior-language pairs (the one picked by the
index draw) when the uniform draw is below 0.95, and otherwise a pair of the
complement: an ordered no-self pair over the full language set that is not a
prior pair, again the one picked by the index draw. -/
theorem selectLangPair_spec (r : ℚ) (idx : ℕ) :
    (r < 0.95 → idx < priorLangPairs.length →
      selectLangPair r idx = priorLangPairs.getD idx ("", "") ∧
      (selectLangPair r idx).1 ∈ priorLangs ∧
      (selectLangPair r idx).2 ∈ priorLangs ∧
      (selectLangPair r idx).2 ≠ (selectLangPair r idx).1) ∧
    (0.95 ≤ r → idx < newLangPairs.length →
      selectLangPair r idx = newLangPairs.getD idx ("", "") ∧
      selectLangPair r idx ∈ langPairs ∧
      selectLangPair r idx ∉ priorLangPairs ∧
      (selectLangPair r idx).1 ∈ langs ∧
      (selectLangPair r idx).2 ∈ langs ∧
      (selectLangPair r idx).2 ≠ (selectLangPair r idx).1) := by
  constructor
  · intro hr hidx
    have hsel : selectLangPair r idx = priorLangPairs.getD idx ("", "") := by
      unfold selectLangPair
      rw [if_pos hr]
    have hmem : selectLangPair r idx ∈ priorLangPairs := by
      rw [hsel, List.getD_eq_getElem _ _ hidx]
      exact List.getElem_mem hidx
    have hchar := (mem_permutations2 priorLangs _).mp hmem
    exact ⟨hsel, hchar.1, hchar.2.1, hchar.2.2⟩
  · intro hr hidx
    have hnlt : ¬ r < 0.95 := not_lt.mpr hr
    have hsel : selectLangPair r idx = newLangPairs.getD idx ("", "") := by
      unfold selectLangPair
      rw [if_neg hnlt]
    have hmem : selectLangPair r idx ∈ newLangPairs := by
      rw [hsel, List.getD_eq_getElem _ _ hidx]
      exact List.getElem_mem hidx
    have hfil := List.mem_filter.mp hmem
    have hlp : selectLangPair r idx ∈ langPairs := hfil.1
    have hnp : selectLangPair r idx ∉ priorLangPairs := by simpa using hfil.2
    have hchar := (mem_permutations2 langs _).mp hlp
    exact ⟨hsel, hlp, hnp, hchar.1, hchar.2.1, hchar.2.2⟩

/-- C4: before the language gate, the composite for candidate i is the sum,
over reward models in their fixed registration order, of the model weight
times the sigmoid of that model's raw score for candidate i; the gated entry
is the candidate's gate value times that sum, so entry i depends only on
candidate i's raw scores and gate value. -/
theorem singleScore_weighted_sum (models : List RewardFn) (weights : List ℝ)
    (detect : DetectFn) (source : String) (translations : List String)
    (targetLang : String) (i : ℕ) (hi : i < translations.length)
    (h : ∀ mw ∈ models.zip weights,
      (mw.1 source translations).length = translations.length) :
    (rewardScores models weights source translations).getD i 0 =
      ((models.zip weights).map
        (fun mw => mw.2 * sigmoid ((mw.1 source translations).getD i 0))).sum ∧
    (singleScore models weights detect source translations targetLang).getD i 0 =
      (((filterLang detect translations targetLang).getD i 0 : ℕ) : ℝ) *
        (rewardScores models weights source translations).getD i 0 :=
  ⟨rewardScores_getD models weights source translations i hi h,
   singleScore_getD models weights detect source translations targetLang i hi h⟩

/-- C3: for every non-empty candidate list (the validator runs its two
length-preserving reward models with weights 0.5 each), `single_score`
returns one value per candidate, and every returned value lies in the closed
interval [0, 1]. -/
theorem singleScore_length_and_range (m1 m2 : RewardFn) (detect : DetectFn)
    (source : String) (translations : List String) (targetLang : String)
    (hne : translations ≠ [])
    (h1 : (m1 source translations).length = translations.length)
    (h2 : (m2 source translations).length = translations.length) :
    (singleScore [m1, m2] rewardWeights detect source translations
      targetLang).length = translations.length ∧
    ∀ x ∈ singleScore [m1, m2] rewardWeights detect source translations targetLang,
      0 ≤ x ∧ x ≤ 1 :=
  ⟨singleScore_length [m1, m2] rewardWeights detect source translations
      targetLang (twoModel_len_hyp m1 m2 source translations h1 h2),
   singleScore_bounds m1 m2 detect source translations targetLang h1 h2⟩

/-- C7: a failure of either tracker call is caught inside `score`: whatever
the two tracker functions return (including always raising), `score` still
returns exactly the computed (final_scores, top_translations, top_scores)
triple. -/
theorem score_tracker_isolated (models : List RewardFn) (weights : List ℝ)
    (detect : DetectFn)
    (trackS : String → String → List ℝ → Except String Unit)
    (trackT : String → String → String → String → ℝ → String → String → ℝ →
      Except String Unit)
    (sources : List String) (translations : List (List String))
    (sourceLang targetLang : String) (fs : List ℝ) (tt : List String)
    (tsc : List ℝ) (bm wm : ℝ × String × String)
    (h : scoreRun models weights detect sources translations targetLang =
      some (fs, tt, tsc, bm, wm)) :
    scoreWithTracker models weights detect trackS trackT sources translations
      sourceLang targetLang = some (fs, tt, tsc) := by
  unfold scoreWithTracker
  rw [h]

/-- C1: on a non-empty batch of sources whose per-source candidate lists all
have length M, `score` returns final scores with one entry per miner, and the
entry for miner i is the arithmetic mean, over all sources, of that source's
composite score for candidate i (the accumulated totals divided by the
number of sources). -/
theorem score_final_scores_mean (models : List RewardFn) (weights : List ℝ)
    (detect : DetectFn) (sources : List String)
    (translations : List (List String)) (targetLang : String) (M : ℕ)
    (hS : sources ≠ [])
    (hlen : sources.length = translations.length)
    (hM : ∀ t ∈ translations, t.length = M) (hM1 : 1 ≤ M)
    (hmod : ∀ p ∈ sources.zip translations, ∀ mw ∈ models.zip weights,
      (mw.1 p.1 p.2).length = p.2.length) :
    ∃ fs tt tsc bm wm,
      scoreRun models weights detect sources translations targetLang =
        some (fs, tt, tsc, bm, wm) ∧
      fs.length = M ∧
      ∀ i, i < M → fs.getD i 0 =
        ((sources.zip translations).map (fun p =>
          (singleScore models weights detect p.1 p.2 targetLang).getD i 0)).sum /
          (sources.length : ℝ) := by
  obtain ⟨t0, ts, rfl⟩ : ∃ t0 ts, translations = t0 :: ts := by
    cases translations with
    | nil =>
      exfalso
      rw [List.length_nil] at hlen
      exact hS (List.length_eq_zero.mp hlen)
    | cons a b => exact ⟨a, b, rfl⟩
  have hplen : ∀ p ∈ sources.zip (t0 :: ts),
      (pSc models weights detect targetLang p).length = M := by
    intro p hp
    have hmem := List.of_mem_zip hp
    have hlen2 : p.2.length = M := hM p.2 hmem.2
    have hsl := singleScore_length models weights detect p.1 p.2 targetLang (hmod p hp)
    unfold pSc
    rw [hsl, hlen2]
  have hnz : ∀ p ∈ sources.zip (t0 :: ts),
      pSc models weights detect targetLang p ≠ [] := by
    intro p hp he
    have hl := hplen p hp
    rw [he] at hl
    rw [List.length_nil] at hl
    omega
  have ht0 : t0.length = M := hM t0 (List.mem_cons_self _ _)
  obtain ⟨hA, hAe⟩ :=
    foldl_accStep_spec models weights detect targetLang M
      (sources.zip (t0 :: ts)) (List.replicate t0.length 0) hplen (by simp [ht0])
  refine ⟨_, _, _, _, _,
    scoreRun_eq models weights detect targetLang sources t0 ts hS hnz, ?_, ?_⟩
  · rw [List.length_map]
    exact hA
  · intro i hi
    rw [getD_map _ 0 0 _ i (by rw [hA]; exact hi)]
    rw [hAe i hi]
    have hrep : (List.replicate t0.length (0 : ℝ)).getD i 0 = 0 := by
      rw [List.getD_eq_getElem _ _ (by rw [List.length_replicate, ht0]; exact hi)]
      simp
    rw [hrep, zero_add]
    rfl

/-- The composite-score vector that `score` computes for source index j when
the validator runs its two reward models. -/
noncomputable def scAt (m1 m2 : RewardFn) (detect : DetectFn)
    (targetLang : String) (sources : List String)
    (translations : List (List String)) (j : ℕ) : List ℝ :=
  singleScore [m1, m2] rewardWeights detect (sources.getD j "")
    (translations.getD j []) targetLang

/-- C5 (amended): per source, `top_translations` and `top_scores` hold the
candidate and score at the first index achieving that source's maximum; the
worst exemplar reported to the tracker is the first-seen per-source minimum
across the batch; and the best exemplar is the first-seen per-source maximum
across the batch provided some composite score is strictly positive — when
every composite score is 0 the initial sentinel (score 0, empty texts) is
reported instead, which is the correction to the claim. -/
theorem score_top_and_exemplars (m1 m2 : RewardFn) (detect : DetectFn)
    (sources : List String) (translations : List (List String))
    (targetLang : String) (M : ℕ)
    (hS : sources ≠ [])
    (hlen : sources.length = translations.length)
    (hM : ∀ t ∈ translations, t.length = M) (hM1 : 1 ≤ M)
    (hm1 : ∀ p ∈ sources.zip translations, (m1 p.1 p.2).length = p.2.length)
    (hm2 : ∀ p ∈ sources.zip translations, (m2 p.1 p.2).length = p.2.length) :
    ∃ fs tt tsc bm wm,
      scoreRun [m1, m2] rewardWeights detect sources translations targetLang =
        some (fs, tt, tsc, bm, wm) ∧
      tt.length = sources.length ∧
      tsc.length = sources.length ∧
      (∀ j, j < sources.length → ∃ i, i < M ∧
        tsc.getD j 0 =
          (scAt m1 m2 detect targetLang sources translations j).getD i 0 ∧
        tt.getD j "" = (translations.getD j []).getD i "" ∧
        (∀ k, k < M →
          (scAt m1 m2 detect targetLang sources translations j).getD k 0 ≤
            tsc.getD j 0) ∧
        (∀ k, k < i →
          (scAt m1 m2 detect targetLang sources translations j).getD k 0 <
            tsc.getD j 0)) ∧
      (∃ j, j < sources.length ∧ ∃ i, i < M ∧
        wm = ((scAt m1 m2 detect targetLang sources translations j).getD i 0,
          sources.getD j "", (translations.getD j []).getD i "") ∧
        (∀ n k, n < sources.length → k < M →
          wm.1 ≤ (scAt m1 m2 detect targetLang sources translations n).getD k 0) ∧
        (∀ n, n < j → ∀ k, k < M →
          wm.1 < (scAt m1 m2 detect targetLang sources translations n).getD k 0) ∧
        (∀ k, k < i →
          wm.1 < (scAt m1 m2 detect targetLang sources translations j).getD k 0)) ∧
      ((∃ n k, n < sources.length ∧ k < M ∧
          0 < (scAt m1 m2 detect targetLang sources translations n).getD k 0) →
        ∃ j, j < sources.length ∧ ∃ i, i < M ∧
          bm = ((scAt m1 m2 detect targetLang sources translations j).getD i 0,
            sources.getD j "", (translations.getD j []).getD i "") ∧
          0 < bm.1 ∧
          (∀ n k, n < sources.length → k < M →
            (scAt m1 m2 detect targetLang sources translations n).getD k 0 ≤ bm.1) ∧
          (∀ n, n < j → ∀ k, k < M →
            (scAt m1 m2 detect targetLang sources translations n).getD k 0 < bm.1) ∧
          (∀ k, k < i →
            (scAt m1 m2 detect targetLang sources translations j).getD k 0 < bm.1)) := by
  obtain ⟨t0, ts, rfl⟩ : ∃ t0 ts, translations = t0 :: ts := by
    cases translations with
    | nil =>
      exfalso
      rw [List.length_nil] at hlen
      exact hS (List.length_eq_zero.mp hlen)
    | cons a b => exact ⟨a, b, rfl⟩
  have hSpos : 0 < sources.length := by
    cases sources with
    | nil => exact absurd rfl hS
    | cons a b => simp
  have hzlen : (sources.zip (t0 :: ts)).length = sources.length := by
    rw [List.length_zip, ← hlen, min_self]
  have hmod : ∀ p ∈ sources.zip (t0 :: ts), ∀ mw ∈ [m1, m2].zip rewardWeights,
      (mw.1 p.1 p.2).length = p.2.length := by
    intro p hp
    exact twoModel_len_hyp m1 m2 p.1 p.2 (hm1 p hp) (hm2 p hp)
  have hplen : ∀ p ∈ sources.zip (t0 :: ts),
      (pSc [m1, m2] rewardWeights detect targetLang p).length = M := by
    intro p hp
    have hmem := List.of_mem_zip hp
    have hlen2 : p.2.length = M := hM p.2 hmem.2
    have hsl := singleScore_length [m1, m2] rewardWeights detect p.1 p.2
      targetLang (hmod p hp)
    unfold pSc
    rw [hsl, hlen2]
  have hnz : ∀ p ∈ sources.zip (t0 :: ts),
      pSc [m1, m2] rewardWeights detect targetLang p ≠ [] := by
    intro p hp he
    have hl := hplen p hp
    rw [he, List.length_nil] at hl
    omega
  have hpairD : ∀ j, j < sources.length →
      (sources.zip (t0 :: ts)).getD j ("", []) =
        (sources.getD j "", (t0 :: ts).getD j []) :=
    fun j hj => zip_getD sources (t0 :: ts) j hj hlen
  have hpmem : ∀ j, j < sources.length →
      (sources.zip (t0 :: ts)).getD j ("", []) ∈ sources.zip (t0 :: ts) := by
    intro j hj
    rw [List.getD_eq_getElem _ _ (by rw [hzlen]; exact hj)]
    exact List.getElem_mem _
  have hscD : ∀ j, j < sources.length →
      pSc [m1, m2] rewardWeights detect targetLang
        ((sources.zip (t0 :: ts)).getD j ("", [])) =
        scAt m1 m2 detect targetLang sources (t0 :: ts) j := by
    intro j hj
    rw [hpairD j hj]
    rfl
  have hscLen : ∀ j, j < sources.length →
      (scAt m1 m2 detect targetLang sources (t0 :: ts) j).length = M := by
    intro j hj
    rw [← hscD j hj]
    exact hplen _ (hpmem j hj)
  have hscNe : ∀ j, j < sources.length →
      scAt m1 m2 detect targetLang sources (t0 :: ts) j ≠ [] := by
    intro j hj he
    have hl := hscLen j hj
    rw [he, List.length_nil] at hl
    omega
  have hscMem : ∀ j, j < sources.length → ∀ k, k < M →
      (scAt m1 m2 detect targetLang sources (t0 :: ts) j).getD k 0 ∈
        scAt m1 m2 detect targetLang sources (t0 :: ts) j := by
    intro j hj k hk
    rw [List.getD_eq_getElem _ _ (by rw [hscLen j hj]; exact hk)]
    exact List.getElem_mem _
  have hscLe1 : ∀ j, j < sources.length →
      ∀ x ∈ scAt m1 m2 detect targetLang sources (t0 :: ts) j, x ≤ 1 := by
    intro j hj x hx
    have hp := hpmem j hj
    have hx2 : x ∈ singleScore [m1, m2] rewardWeights detect
        ((sources.zip (t0 :: ts)).getD j ("", [])).1
        ((sources.zip (t0 :: ts)).getD j ("", [])).2 targetLang := by
      have hd := hscD j hj
      unfold pSc at hd
      rw [hd]
      exact hx
    exact (singleScore_bounds m1 m2 detect _ _ targetLang (hm1 _ hp) (hm2 _ hp)
      x hx2).2
  refine ⟨_, _, _, _, _,
    scoreRun_eq [m1, m2] rewardWeights detect targetLang sources t0 ts hS hnz,
    ?_, ?_, ?_, ?_, ?_⟩
  · rw [List.length_map]
    exact hzlen
  · rw [List.length_map]
    exact hzlen
  · intro j hj
    have hmx := pyMaxD_mem (hscNe j hj)
    obtain ⟨hilt, hgetd, hfirst⟩ :=
      indexOf_spec (scAt m1 m2 detect targetLang sources (t0 :: ts) j)
        (pyMaxD (scAt m1 m2 detect targetLang sources (t0 :: ts) j)) hmx
    have hiM : (scAt m1 m2 detect targetLang sources (t0 :: ts) j).indexOf
        (pyMaxD (scAt m1 m2 detect targetLang sources (t0 :: ts) j)) < M := by
      rw [← hscLen j hj]
      exact hilt
    have htsc : ((sources.zip (t0 :: ts)).map
        (pMax [m1, m2] rewardWeights detect targetLang)).getD j 0 =
        pyMaxD (scAt m1 m2 detect targetLang sources (t0 :: ts) j) := by
      rw [getD_map _ ("", []) 0 _ j (by rw [hzlen]; exact hj)]
      unfold pMax
      rw [hscD j hj]
    have htt : ((sources.zip (t0 :: ts)).map
        (pMaxCand [m1, m2] rewardWeights detect targetLang)).getD j "" =
        ((t0 :: ts).getD j []).getD
          ((scAt m1 m2 detect targetLang sources (t0 :: ts) j).indexOf
            (pyMaxD (scAt m1 m2 detect targetLang sources (t0 :: ts) j))) "" := by
      rw [getD_map _ ("", []) "" _ j (by rw [hzlen]; exact hj)]
      unfold pMaxCand pMax
      rw [hscD j hj, hpairD j hj]
    refine ⟨(scAt m1 m2 detect targetLang sources (t0 :: ts) j).indexOf
      (pyMaxD (scAt m1 m2 detect targetLang sources (t0 :: ts) j)), hiM,
      ?_, ?_, ?_, ?_⟩
    · rw [htsc, hgetd]
    · exact htt
    · intro k hk
      rw [htsc]
      exact le_pyMaxD (hscMem j hj k hk)
    · intro k hk
      rw [htsc]
      exact lt_of_le_of_ne (le_pyMaxD (hscMem j hj k (lt_trans hk hiM)))
        (hfirst k hk)
  · rcases worstFold_cases ((sources.zip (t0 :: ts)).map (fun p =>
        (pMin [m1, m2] rewardWeights detect targetLang p, p.1,
          pMinCand [m1, m2] rewardWeights detect targetLang p))) (1.1, "", "")
      with ⟨heq, hall⟩ | ⟨jdx, hjdx, heq, hlt, hall, hbefore⟩
    · exfalso
      have hmem0 : ((sources.zip (t0 :: ts)).map (fun p =>
          (pMin [m1, m2] rewardWeights detect targetLang p, p.1,
            pMinCand [m1, m2] rewardWeights detect targetLang p))).getD 0
            (0, "", "") ∈ ((sources.zip (t0 :: ts)).map (fun p =>
          (pMin [m1, m2] rewardWeights detect targetLang p, p.1,
            pMinCand [m1, m2] rewardWeights detect targetLang p))) := by
        rw [List.getD_eq_getElem _ _ (by rw [List.length_map, hzlen]; exact hSpos)]
        exact List.getElem_mem _
      have h1le := hall _ hmem0
      rw [getD_map _ ("", []) (0, "", "") _ 0 (by rw [hzlen]; exact hSpos)] at h1le
      have hminm := pyMinD_mem (hscNe 0 hSpos)
      have hle1 := hscLe1 0 hSpos _ hminm
      have h1le2 : (1.1 : ℝ) ≤ pyMinD (scAt m1 m2 detect targetLang sources
          (t0 :: ts) 0) := by
        have hd := hscD 0 hSpos
        unfold pMin at h1le
        rw [hd] at h1le
        exact h1le
      linarith
    · have hjS : jdx < sources.length := by
        rw [List.length_map, hzlen] at hjdx
        exact hjdx
      have hLgetD : ∀ n, n < sources.length →
          ((sources.zip (t0 :: ts)).map (fun p =>
            (pMin [m1, m2] rewardWeights detect targetLang p, p.1,
              pMinCand [m1, m2] rewardWeights detect targetLang p))).getD n
              (0, "", "") =
            (pyMinD (scAt m1 m2 detect targetLang sources (t0 :: ts) n),
              sources.getD n "",
              ((t0 :: ts).getD n []).getD
                ((scAt m1 m2 detect targetLang sources (t0 :: ts) n).indexOf
                  (pyMinD (scAt m1 m2 detect targetLang sources (t0 :: ts) n)))
                "") := by
        intro n hn
        rw [getD_map _ ("", []) (0, "", "") _ n (by rw [hzlen]; exact hn)]
        unfold pMinCand pMin
        rw [hscD n hn, hpairD n hn]
      have hmn := pyMinD_mem (hscNe jdx hjS)
      obtain ⟨hilt, hgetd, hfirst⟩ :=
        indexOf_spec (scAt m1 m2 detect targetLang sources (t0 :: ts) jdx)
          (pyMinD (scAt m1 m2 detect targetLang sources (t0 :: ts) jdx)) hmn
      have hiM : (scAt m1 m2 detect targetLang sources (t0 :: ts) jdx).indexOf
          (pyMinD (scAt m1 m2 detect targetLang sources (t0 :: ts) jdx)) < M := by
        rw [← hscLen jdx hjS]
        exact hilt
      have hwm : ((sources.zip (t0 :: ts)).map (fun p =>
          (pMin [m1, m2] rewardWeights detect targetLang p, p.1,
            pMinCand [m1, m2] rewardWeights detect targetLang p))).foldl
            worstStep (1.1, "", "") =
          (pyMinD (scAt m1 m2 detect targetLang sources (t0 :: ts) jdx),
            sources.getD jdx "",
            ((t0 :: ts).getD jdx []).getD
              ((scAt m1 m2 detect targetLang sources (t0 :: ts) jdx).indexOf
                (pyMinD (scAt m1 m2 detect targetLang sources (t0 :: ts) jdx)))
              "") := by
        rw [heq, hLgetD jdx hjS]
      refine ⟨jdx, hjS, (scAt m1 m2 detect targetLang sources (t0 :: ts)
        jdx).indexOf (pyMinD (scAt m1 m2 detect targetLang sources (t0 :: ts)
        jdx)), hiM, ?_, ?_, ?_, ?_⟩
      · rw [hwm, hgetd]
      · intro n k hn hk
        rw [hwm]
        have hmemn : ((sources.zip (t0 :: ts)).map (fun p =>
            (pMin [m1, m2] rewardWeights detect targetLang p, p.1,
              pMinCand [m1, m2] rewardWeights detect targetLang p))).getD n
              (0, "", "") ∈ ((sources.zip (t0 :: ts)).map (fun p =>
            (pMin [m1, m2] rewardWeights detect targetLang p, p.1,
              pMinCand [m1, m2] rewardWeights detect targetLang p))) := by
          rw [List.getD_eq_getElem _ _ (by rw [List.length_map, hzlen]; exact hn)]
          exact List.getElem_mem _
        have h2 := hall _ hmemn
        rw [hLgetD jdx hjS, hLgetD n hn] at h2
        exact le_trans h2 (pyMinD_le (hscMem n hn k hk))
      · intro n hnj k hk
        have hn : n < sources.length := lt_trans hnj hjS
        rw [hwm]
        have h2 := hbefore n hnj
        rw [hLgetD jdx hjS, hLgetD n hn] at h2
        exact lt_of_lt_of_le h2 (pyMinD_le (hscMem n hn k hk))
      · intro k hk
        rw [hwm]
        exact lt_of_le_of_ne (pyMinD_le (hscMem jdx hjS k (lt_trans hk hiM)))
          (Ne.symm (hfirst k hk))
  · intro hpos
    obtain ⟨n0, k0, hn0, hk0, hpos0⟩ := hpos
    rcases bestFold_cases ((sources.zip (t0 :: ts)).map (fun p =>
        (pMax [m1, m2] rewardWeights detect targetLang p, p.1,
          pMaxCand [m1, m2] rewardWeights detect targetLang p))) (0, "", "")
      with ⟨heq, hall⟩ | ⟨jdx, hjdx, heq, hgt, hall, hbefore⟩
    · exfalso
      have hmemn0 : ((sources.zip (t0 :: ts)).map (fun p =>
          (pMax [m1, m2] rewardWeights detect targetLang p, p.1,
            pMaxCand [m1, m2] rewardWeights detect targetLang p))).getD n0
            (0, "", "") ∈ ((sources.zip (t0 :: ts)).map (fun p =>
          (pMax [m1, m2] rewardWeights detect targetLang p, p.1,
            pMaxCand [m1, m2] rewardWeights detect targetLang p))) := by
        rw [List.getD_eq_getElem _ _ (by rw [List.length_map, hzlen]; exact hn0)]
        exact List.getElem_mem _
      have h1 := hall _ hmemn0
      rw [getD_map _ ("", []) (0, "", "") _ n0 (by rw [hzlen]; exact hn0)] at h1
      have h1b : pyMaxD (scAt m1 m2 detect targetLang sources (t0 :: ts) n0) ≤
          (0 : ℝ) := by
        have hd := hscD n0 hn0
        unfold pMax at h1
        rw [hd] at h1
        exact h1
      have h2 := le_pyMaxD (hscMem n0 hn0 k0 hk0)
      linarith
    · have hjS : jdx < sources.length := by
        rw [List.length_map, hzlen] at hjdx
        exact hjdx
      have hLgetD : ∀ n, n < sources.length →
          ((sources.zip (t0 :: ts)).map (fun p =>
            (pMax [m1, m2] rewardWeights detect targetLang p, p.1,
              pMaxCand [m1, m2] rewardWeights detect targetLang p))).getD n
              (0, "", "") =
            (pyMaxD (scAt m1 m2 detect targetLang sources (t0 :: ts) n),
              sources.getD n "",
              ((t0 :: ts).getD n []).getD
                ((scAt m1 m2 detect targetLang sources (t0 :: ts) n).indexOf
                  (pyMaxD (scAt m1 m2 detect targetLang sources (t0 :: ts) n)))
                "") := by
        intro n hn
        rw [getD_map _ ("", []) (0, "", "") _ n (by rw [hzlen]; exact hn)]
        unfold pMaxCand pMax
        rw [hscD n hn, hpairD n hn]
      have hmx := pyMaxD_mem (hscNe jdx hjS)
      obtain ⟨hilt, hgetd, hfirst⟩ :=
        indexOf_spec (scAt m1 m2 detect targetLang sources (t0 :: ts) jdx)
          (pyMaxD (scAt m1 m2 detect targetLang sources (t0 :: ts) jdx)) hmx
      have hiM : (scAt m1 m2 detect targetLang sources (t0 :: ts) jdx).indexOf
          (pyMaxD (scAt m1 m2 detect targetLang sources (t0 :: ts) jdx)) < M := by
        rw [← hscLen jdx hjS]
        exact hilt
      have hbm : ((sources.zip (t0 :: ts)).map (fun p =>
          (pMax [m1, m2] rewardWeights detect targetLang p, p.1,
            pMaxCand [m1, m2] rewardWeights detect targetLang p))).foldl
            bestStep (0, "", "") =
          (pyMaxD (scAt m1 m2 detect targetLang sources (t0 :: ts) jdx),
            sources.getD jdx "",
            ((t0 :: ts).getD jdx []).getD
              ((scAt m1 m2 detect targetLang sources (t0 :: ts) jdx).indexOf
                (pyMaxD (scAt m1 m2 detect targetLang sources (t0 :: ts) jdx)))
              "") := by
        rw [heq, hLgetD jdx hjS]
      have hgt2 : (0 : ℝ) < pyMaxD (scAt m1 m2 detect targetLang sources
          (t0 :: ts) jdx) := by
        rw [hLgetD jdx hjS] at hgt
        exact hgt
      refine ⟨jdx, hjS, (scAt m1 m2 detect targetLang sources (t0 :: ts)
        jdx).indexOf (pyMaxD (scAt m1 m2 detect targetLang sources (t0 :: ts)
        jdx)), hiM, ?_, ?_, ?_, ?_, ?_⟩
      · rw [hbm, hgetd]
      · rw [hbm]
        exact hgt2
      · intro n k hn hk
        rw [hbm]
        have hmemn : ((sources.zip (t0 :: ts)).map (fun p =>
            (pMax [m1, m2] rewardWeights detect targetLang p, p.1,
              pMaxCand [m1, m2] rewardWeights detect targetLang p))).getD n
              (0, "", "") ∈ ((sources.zip (t0 :: ts)).map (fun p =>
            (pMax [m1, m2] rewardWeights detect targetLang p, p.1,
              pMaxCand [m1, m2] rewardWeights detect targetLang p))) := by
          rw [List.getD_eq_getElem _ _ (by rw [List.length_map, hzlen]; exact hn)]
          exact List.getElem_mem _
        have h2 := hall _ hmemn
        rw [hLgetD jdx hjS, hLgetD n hn] at h2
        exact le_trans (le_pyMaxD (hscMem n hn k hk)) h2
      · intro n hnj k hk
        have hn : n < sources.length := lt_trans hnj hjS
        rw [hbm]
        have h2 := hbefore n hnj
        rw [hLgetD jdx hjS, hLgetD n hn] at h2
        exact lt_of_le_of_lt (le_pyMaxD (hscMem n hn k hk)) h2
      · intro k hk
        rw [hbm]
        exact lt_of_le_of_ne (le_pyMaxD (hscMem jdx hjS k (lt_trans hk hiM)))
          (hfirst k hk)

/-- A fully evaluated run of `score`: one source, one candidate, detection
failing, so the only composite score is 0.  The best exemplar stays at the
initial sentinel (score 0, empty texts) while the worst exemplar records the
actual pair. -/
theorem scoreRun_example :
    scoreRun [constZeroModel, constZeroModel] rewardWeights (fun _ => none)
      ["src"] [["bonjour"]] "de" =
      some ([0], ["bonjour"], [0], (0, "", ""), (0, "src", "bonjour")) := by
  have hsc : singleScore [constZeroModel, constZeroModel] rewardWeights
      (fun _ => none) "src" ["bonjour"] "de" = [0] := by
    simp [singleScore, filterLang, rewardScores, rmStep, sigmoidNormalize,
      constZeroModel, rewardWeights]
  unfold scoreRun
  rw [List.head?_cons]
  simp only [Option.bind_eq_bind, Option.some_bind]
  rw [show (["src"].zip [["bonjour"]]) = [("src", ["bonjour"])] from rfl]
  rw [List.foldlM_cons]
  unfold scoreStep
  simp only []
  rw [hsc]
  simp [pyMax?, pyMin?, List.indexOf_cons_self]
  norm_num
  simp [List.mapM.loop]

/-- C5 counterexample: one source "src" with one candidate "bonjour" whose
language detection fails, so its composite score is 0.  The pair with the
highest per-source maximum score is ("src", "bonjour") with score 0, yet the
best exemplar reported to the tracker is the initial sentinel with empty
source and candidate texts: the claim that the reported global best exemplar
is the (source, candidate, score) with the highest per-source maximum is
false at this input. -/
theorem score_best_exemplar_counterexample :
    scoreRun [constZeroModel, constZeroModel] rewardWeights (fun _ => none)
      ["src"] [["bonjour"]] "de" =
      some ([0], ["bonjour"], [0], (0, "", ""), (0, "src", "bonjour")) ∧
    ("" : String) ≠ "src" ∧ ("" : String) ≠ "bonjour" :=
  ⟨scoreRun_example, by decide, by decide⟩

/-- Witness for C1 at a concrete batch: one source, one candidate, no reward
models. -/
theorem score_final_scores_mean_witness :
    (["a"] : List String) ≠ [] ∧
    (∃ fs tt tsc bm wm,
      scoreRun [] [] (fun _ => none) ["a"] [["b"]] "de" =
        some (fs, tt, tsc, bm, wm) ∧
      fs.length = 1 ∧
      ∀ i, i < 1 → fs.getD i 0 =
        ((["a"].zip [["b"]]).map (fun p =>
          (singleScore [] [] (fun _ => none) p.1 p.2 "de").getD i 0)).sum /
          ((["a"] : List String).length : ℝ)) :=
  ⟨by decide,
   score_final_scores_mean [] [] (fun _ => none) ["a"] [["b"]] "de" 1
     (by decide) rfl (by decide) (by decide) (by simp)⟩

/-- Witness for C2: a French candidate scored against German target. -/
theorem singleScore_wrong_lang_zero_witness :
    (0 : ℕ) < (["Bonjour"] : List String).length ∧
    (fun _ => some "fr" : DetectFn) ((["Bonjour"] : List String).getD 0 "") ≠
      some "de" ∧
    (singleScore [] [] (fun _ => some "fr") "Hello" ["Bonjour"] "de").getD 0 0 = 0 :=
  ⟨by decide, by decide,
   singleScore_wrong_lang_zero [] [] (fun _ => some "fr") "Hello" ["Bonjour"]
     "de" 0 (by decide) (by decide)⟩

/-- Witness for C3 with the two concrete constant-zero reward models. -/
theorem singleScore_length_and_range_witness :
    (["x"] : List String) ≠ [] ∧
    (constZeroModel "s" ["x"]).length = (["x"] : List String).length ∧
    ((singleScore [constZeroModel, constZeroModel] rewardWeights (fun _ => none)
        "s" ["x"] "de").length = (["x"] : List String).length ∧
      ∀ x ∈ singleScore [constZeroModel, constZeroModel] rewardWeights
        (fun _ => none) "s" ["x"] "de", 0 ≤ x ∧ x ≤ 1) :=
  ⟨by decide, by simp [constZeroModel],
   singleScore_length_and_range constZeroModel constZeroModel (fun _ => none)
     "s" ["x"] "de" (by decide) (by simp [constZeroModel])
     (by simp [constZeroModel])⟩

/-- Witness for C4 with the validator configuration at candidate 0. -/
theorem singleScore_weighted_sum_witness :
    (0 : ℕ) < (["x"] : List String).length ∧
    ((rewardScores [constZeroModel, constZeroModel] rewardWeights "s" ["x"]).getD 0 0 =
      (([constZeroModel, constZeroModel].zip rewardWeights).map
        (fun mw => mw.2 * sigmoid ((mw.1 "s" ["x"]).getD 0 0))).sum ∧
    (singleScore [constZeroModel, constZeroModel] rewardWeights (fun _ => none)
        "s" ["x"] "de").getD 0 0 =
      (((filterLang (fun _ => none) ["x"] "de").getD 0 0 : ℕ) : ℝ) *
        (rewardScores [constZeroModel, constZeroModel] rewardWeights "s" ["x"]).getD 0 0) :=
  ⟨by decide,
   singleScore_weighted_sum [constZeroModel, constZeroModel] rewardWeights
     (fun _ => none) "s" ["x"] "de" 0 (by decide)
     (twoModel_len_hyp constZeroModel constZeroModel "s" ["x"]
       (by simp [constZeroModel]) (by simp [constZeroModel]))⟩

/-- Witness for C7: both trackers always raise, the scoring triple is returned
unchanged. -/
theorem score_tracker_isolated_witness :
    scoreRun [constZeroModel, constZeroModel] rewardWeights (fun _ => none)
      ["src"] [["bonjour"]] "de" =
      some ([0], ["bonjour"], [0], (0, "", ""), (0, "src", "bonjour")) ∧
    scoreWithTracker [constZeroModel, constZeroModel] rewardWeights
      (fun _ => none) (fun _ _ _ => Except.error "boom")
      (fun _ _ _ _ _ _ _ _ => Except.error "boom") ["src"] [["bonjour"]]
      "en" "de" = some ([0], ["bonjour"], [0]) :=
  ⟨scoreRun_example,
   score_tracker_isolated [constZeroModel, constZeroModel] rewardWeights
     (fun _ => none) (fun _ _ _ => Except.error "boom")
     (fun _ _ _ _ _ _ _ _ => Except.error "boom") ["src"] [["bonjour"]]
     "en" "de" [0] ["bonjour"] [0] (0, "", "") (0, "src", "bonjour")
     scoreRun_example⟩

/-- Witness for C8: two candidates whose detection always fails. -/
theorem filterLang_spec_witness :
    (0 : ℕ) < (["x", "y"] : List String).length ∧
    (filterLang (fun _ => none) ["x", "y"] "de").length = 2 ∧
    (filterLang (fun _ => none) ["x", "y"] "de").getD 0 0 = 0 :=
  ⟨by decide, (filterLang_spec (fun _ => none) ["x", "y"] "de").1,
   ((filterLang_spec (fun _ => none) ["x", "y"] "de").2 0 (by decide)).1 rfl⟩

/-- Witness for C9: the unsupported code "fr" fails, the supported code "en"
returns a dataset text. -/
theorem sampleCase_spec_witness :
    ("fr" : String) ∉ validLn ∧
    (∃ msg, sampleCase ["abs"] 0 "fr" = Except.error msg) ∧
    ("en" : String) ∈ validLn ∧
    (sampleCase ["abs"] 0 "en" = Except.ok ((["abs"] : List String).getD 0 "") ∧
      (["abs"] : List String).getD 0 "" ∈ (["abs"] : List String)) :=
  ⟨by decide, (sampleCase_spec ["abs"] 0 "fr").1 (by decide), by decide,
   (sampleCase_spec ["abs"] 0 "en").2 (by decide) (by decide)⟩

set_option maxRecDepth 100000 in
/-- Witness for C6: both branches of the selection policy at index 0. -/
theorem selectLangPair_spec_witness :
    ((0 : ℚ) < 0.95 ∧ 0 < priorLangPairs.length ∧
      selectLangPair 0 0 = priorLangPairs.getD 0 ("", "") ∧
      (selectLangPair 0 0).1 ∈ priorLangs ∧
      (selectLangPair 0 0).2 ∈ priorLangs ∧
      (selectLangPair 0 0).2 ≠ (selectLangPair 0 0).1) ∧
    ((0.95 : ℚ) ≤ 1 ∧ 0 < newLangPairs.length ∧
      selectLangPair 1 0 = newLangPairs.getD 0 ("", "") ∧
      selectLangPair 1 0 ∈ langPairs ∧
      selectLangPair 1 0 ∉ priorLangPairs ∧
      (selectLangPair 1 0).1 ∈ langs ∧
      (selectLangPair 1 0).2 ∈ langs ∧
      (selectLangPair 1 0).2 ≠ (selectLangPair 1 0).1) := by
  constructor
  · have h := (selectLangPair_spec 0 0).1 (by norm_num) (by decide)
    exact ⟨by norm_num, by decide, h.1, h.2.1, h.2.2.1, h.2.2.2⟩
  · have h := (selectLangPair_spec 1 0).2 (by norm_num) (by decide)
    exact ⟨by norm_num, by decide, h.1, h.2.1, h.2.2.1, h.2.2.2.1,
      h.2.2.2.2.1, h.2.2.2.2.2⟩

/-- Witness for C5 (amended) at a one-source, one-candidate batch whose
candidate is detected in the target language. -/
theorem score_top_and_exemplars_witness :
    (["s"] : List String) ≠ [] ∧
    (["s"] : List String).length = ([["t"]] : List (List String)).length ∧
    (∀ t ∈ ([["t"]] : List (List String)), t.length = 1) ∧
    (∀ p ∈ (["s"] : List String).zip ([["t"]] : List (List String)),
      (constZeroModel p.1 p.2).length = p.2.length) ∧
    (∃ fs tt tsc bm wm,
      scoreRun [constZeroModel, constZeroModel] rewardWeights
        (fun _ => some "de") ["s"] [["t"]] "de" = some (fs, tt, tsc, bm, wm) ∧
      tt.length = 1 ∧
      tsc.length = 1 ∧
      (∀ j, j < 1 → ∃ i, i < 1 ∧
        tsc.getD j 0 = (scAt constZeroModel constZeroModel (fun _ => some "de")
          "de" ["s"] [["t"]] j).getD i 0 ∧
        tt.getD j "" = (([["t"]] : List (List String)).getD j []).getD i "" ∧
        (∀ k, k < 1 → (scAt constZeroModel constZeroModel (fun _ => some "de")
          "de" ["s"] [["t"]] j).getD k 0 ≤ tsc.getD j 0) ∧
        (∀ k, k < i → (scAt constZeroModel constZeroModel (fun _ => some "de")
          "de" ["s"] [["t"]] j).getD k 0 < tsc.getD j 0)) ∧
      (∃ j, j < 1 ∧ ∃ i, i < 1 ∧
        wm = ((scAt constZeroModel constZeroModel (fun _ => some "de") "de"
            ["s"] [["t"]] j).getD i 0,
          (["s"] : List String).getD j "",
          (([["t"]] : List (List String)).getD j []).getD i "") ∧
        (∀ n k, n < 1 → k < 1 →
          wm.1 ≤ (scAt constZeroModel constZeroModel (fun _ => some "de") "de"
            ["s"] [["t"]] n).getD k 0) ∧
        (∀ n, n < j → ∀ k, k < 1 →
          wm.1 < (scAt constZeroModel constZeroModel (fun _ => some "de") "de"
            ["s"] [["t"]] n).getD k 0) ∧
        (∀ k, k < i →
          wm.1 < (scAt constZeroModel constZeroModel (fun _ => some "de") "de"
            ["s"] [["t"]] j).getD k 0)) ∧
      ((∃ n k, n < 1 ∧ k < 1 ∧
          0 < (scAt constZeroModel constZeroModel (fun _ => some "de") "de"
            ["s"] [["t"]] n).getD k 0) →
        ∃ j, j < 1 ∧ ∃ i, i < 1 ∧
          bm = ((scAt constZeroModel constZeroModel (fun _ => some "de") "de"
              ["s"] [["t"]] j).getD i 0,
            (["s"] : List String).getD j "",
            (([["t"]] : List (List String)).getD j []).getD i "") ∧
          0 < bm.1 ∧
          (∀ n k, n < 1 → k < 1 →
            (scAt constZeroModel constZeroModel (fun _ => some "de") "de"
              ["s"] [["t"]] n).getD k 0 ≤ bm.1) ∧
          (∀ n, n < j → ∀ k, k < 1 →
            (scAt constZeroModel constZeroModel (fun _ => some "de") "de"
              ["s"] [["t"]] n).getD k 0 < bm.1) ∧
          (∀ k, k < i →
            (scAt constZeroModel constZeroModel (fun _ => some "de") "de"
              ["s"] [["t"]] j).getD k 0 < bm.1))) :=
  ⟨by decide, rfl, by decide,
   by
     intro p hp
     simp [constZeroModel],
   score_top_and_exemplars constZeroModel constZeroModel (fun _ => some "de")
     ["s"] [["t"]] "de" 1 (by decide) rfl (by decide) (by decide)
     (by
       intro p hp
       simp [constZeroModel])
     (by
       intro p hp
       simp [constZeroModel])⟩
